import Mathlib

/-!
Verification development for the queuectl job-queue system.

The definitions below are a shallow embedding of `src/main.py`:

* `Job` models the job dictionary after submission, when all fields are
  present (`id`, `command`, `state`, `attempts`, `max_retries`,
  `created_at`, `updated_at`).  Timestamps are modelled as abstract `Nat`
  instants; `get_current_timestamp` becomes an explicit `now : Nat`
  parameter threaded through the operations.
* `ExecResult` models the outcome of `subprocess.run` inside
  `process_job`: an exit code, a `subprocess.TimeoutExpired`, or any other
  exception (a runner fault).
* Store files become explicit `List Job` values; `save_json` becomes
  returning the new collection, and `load_json` takes the file contents as
  an `Option (List Job)` (`none` = the file does not exist, raising
  `FileNotFoundError` in the source).
-/

inductive JobState where
  | pending
  | processing
  | completed
  | failed
  | dead
deriving DecidableEq

structure Job where
  id : String
  command : String
  state : JobState
  attempts : Nat
  max_retries : Nat
  created_at : Nat
  updated_at : Nat
deriving DecidableEq

/-- Outcome of one invocation of the command runner (`subprocess.run` in
`process_job`): an exit status, a timeout, or an unexpected exception. -/
inductive ExecResult where
  | exit (code : Int)
  | timeout
  | fault
deriving DecidableEq

/-- Embedding of `load_json(file_path, default)`: `contents` is the parsed
file when it exists; on `FileNotFoundError` (`contents = none`) the
default is returned instead of an error. -/
def load_json (contents : Option (List Job)) (default : List Job) : List Job :=
  match contents with
  | some data => data
  | none => default

/-- Embedding of `load_jobs()`: load the job store with default `[]`. -/
def load_jobs (contents : Option (List Job)) : List Job :=
  load_json contents []

/-- Embedding of `load_dlq()`: load the dead-letter store with default `[]`. -/
def load_dlq (contents : Option (List Job)) : List Job :=
  load_json contents []

/-- Embedding of `calculate_backoff_delay(attempts, backoff_base)`:
`backoff_base ** attempts`.  Python integers are unbounded, `attempts` is a
non-negative attempt count, hence `Nat` exponent over an `Int` base. -/
def calculate_backoff_delay (attempts : Nat) (backoff_base : Int) : Int :=
  backoff_base ^ attempts

/-- Embedding of the user-supplied JSON object handed to `enqueue`: the
`command` field is required (the source rejects the submission before any
store write otherwise), every other field is optional and defaulted by
`enqueue` when absent. -/
structure JobSubmission where
  id : Option String
  command : String
  state : Option JobState
  attempts : Option Nat
  max_retries : Option Nat
  created_at : Option Nat
deriving DecidableEq

/-- Embedding of the store mutation performed by `enqueue(job_json)` on a
successfully parsed submission: missing fields are defaulted (`id` from
`uuid.uuid4()`, modelled by `gen_id`; `state` to pending; `attempts` to 0;
`max_retries` from the config; `created_at` to now), `updated_at` is set
to now, and the record is appended to the job store. -/
def enqueue (job_data : JobSubmission) (gen_id : String) (config_max_retries : Nat)
    (now : Nat) (jobs : List Job) : List Job :=
  jobs ++ [{
    id := job_data.id.getD gen_id,
    command := job_data.command,
    state := job_data.state.getD JobState.pending,
    attempts := job_data.attempts.getD 0,
    max_retries := job_data.max_retries.getD config_max_retries,
    created_at := job_data.created_at.getD now,
    updated_at := now }]

/-- Embedding of `process_job(job, config)` at a given result of the
command runner.  Mirrors the source branch for branch: zero exit status
completes the job and refreshes `updated_at`; a non-zero exit increments
`attempts` and moves to dead (when `attempts >= max_retries` after the
increment) or failed, refreshing `updated_at`; the `TimeoutExpired` and
generic-exception handlers do the same increment and state choice but do
not touch `updated_at`.  The backoff delay computed in the failed branch
is only echoed to the operator in the source, so it does not appear in the
resulting record.  The source's boolean return value (always `True`) is
dropped. -/
def process_job (job : Job) (now : Nat) (res : ExecResult) : Job :=
  match res with
  | ExecResult.exit code =>
      if code = 0 then
        { job with state := JobState.completed, updated_at := now }
      else
        let a := job.attempts + 1
        if a ≥ job.max_retries then
          { job with attempts := a, state := JobState.dead, updated_at := now }
        else
          { job with attempts := a, state := JobState.failed, updated_at := now }
  | ExecResult.timeout =>
      let a := job.attempts + 1
      if a ≥ job.max_retries then
        { job with attempts := a, state := JobState.dead }
      else
        { job with attempts := a, state := JobState.failed }
  | ExecResult.fault =>
      let a := job.attempts + 1
      if a ≥ job.max_retries then
        { job with attempts := a, state := JobState.dead }
      else
        { job with attempts := a, state := JobState.failed }

/-- Embedding of `move_dead_jobs(jobs)`: iterate the job store in order,
appending records with state dead to the dead-letter store and collecting
the others as the surviving job store.  Returns (alive jobs, new DLQ); the
source loads the DLQ from disk at entry (here the `dlq` argument) and
saves it before returning the alive list. -/
def move_dead_jobs : List Job → List Job → List Job × List Job
  | [], dlq => ([], dlq)
  | job :: rest, dlq =>
      if job.state = JobState.dead then
        move_dead_jobs rest (dlq ++ [job])
      else
        let r := move_dead_jobs rest dlq
        (job :: r.1, r.2)

/-- Embedding of `process_failed_jobs(jobs, config)`.  The source computes
a backoff delay but then unconditionally re-admits every failed job as
pending ("for now, always ready to retry").  NOTE: this function is never
invoked anywhere in the repository — in particular `worker_start` does not
call it — so failed jobs are in fact never re-admitted. -/
def process_failed_jobs (jobs : List Job) : List Job :=
  jobs.map (fun j =>
    if j.state = JobState.failed then { j with state := JobState.pending } else j)

/-- Embedding of the mutation loop `for job in pending_jobs[:count]` inside
`worker_start`.  In the source, `pending_jobs` aliases elements of `jobs`,
so mutating a selected job mutates the corresponding element of `jobs`
in place; here that is rendered as a single left-to-right pass that
processes the first `budget` pending records (marking each processing and
applying `process_job`) and leaves every other record unchanged.  `exec`
gives the command runner's outcome for the k-th selected job.  Returns
(updated job list, the selected jobs, i.e. `pending_jobs[:count]`). -/
def run_pending (now : Nat) (exec : Nat → ExecResult) :
    List Job → Nat → Nat → List Job × List Job
  | [], _, _ => ([], [])
  | job :: rest, budget, k =>
      if job.state = JobState.pending then
        match budget with
        | 0 => (job :: rest, [])
        | b + 1 =>
            let done := process_job { job with state := JobState.processing } now (exec k)
            let r := run_pending now exec rest b (k + 1)
            (done :: r.1, job :: r.2)
      else
        let r := run_pending now exec rest budget k
        (job :: r.1, r.2)

/-- Embedding of one iteration of the `while True` loop in `worker_start`:
load the job store, filter the pending jobs in store order; if there are
none, sleep and restart without writing to either store (`none`); else
process the first at-most-`count` pending jobs, save, and partition dead
records into the dead-letter store via `move_dead_jobs`.  `some (jobs2,
dlq2)` gives the contents of the two stores after the cycle's writes. -/
def worker_cycle (count : Nat) (now : Nat) (exec : Nat → ExecResult)
    (jobs : List Job) (dlq : List Job) : Option (List Job × List Job) :=
  let pending_jobs := jobs.filter (fun j => decide (j.state = JobState.pending))
  if pending_jobs.isEmpty then
    none
  else
    let jobs1 := (run_pending now exec jobs count 0).1
    some (move_dead_jobs jobs1 dlq)

/-- Iterated worker cycles: `worker_loop count nows execs n (jobs, dlq)`
runs `n` cycles of `worker_start`'s loop, cycle `i` at time `nows i` with
runner outcomes `execs i`; a cycle with no pending jobs sleeps and leaves
both stores untouched. -/
def worker_loop (count : Nat) (nows : Nat → Nat) (execs : Nat → Nat → ExecResult) :
    Nat → List Job × List Job → List Job × List Job
  | 0, s => s
  | n + 1, s =>
      match worker_cycle count (nows n) (execs n) s.1 s.2 with
      | none => worker_loop count nows execs n s
      | some s2 => worker_loop count nows execs n s2

/-- Embedding of `dlq_retry(job_id)`: find the first record in the
dead-letter store with the given id (`none` when absent: an error message
is printed and neither store is written); reset it to pending with
`attempts = 0` and a refreshed `updated_at`; append it to the job store;
and remove every record with that id from the dead-letter store. -/
def dlq_retry (job_id : String) (now : Nat) (jobs : List Job)
    (dead_jobs : List Job) : Option (List Job × List Job) :=
  match dead_jobs.find? (fun j => decide (j.id = job_id)) with
  | none => none
  | some job_to_retry =>
      let reset := { job_to_retry with
        state := JobState.pending, attempts := 0, updated_at := now }
      some (jobs ++ [reset], dead_jobs.filter (fun j => decide (¬ j.id = job_id)))

/-- C7: the backoff policy is `base ^ attempts`, equals 1 at `attempts = 0`,
and its value is an integer ≥ 1 whenever `base ≥ 1`; as a Lean function it
is pure by construction (the source function only computes `backoff_base **
attempts`, with no side effects). -/
theorem calculate_backoff_delay_spec (attempts : Nat) (base : Int) (h : 1 ≤ base) :
    calculate_backoff_delay attempts base = base ^ attempts
    ∧ 1 ≤ calculate_backoff_delay attempts base
    ∧ calculate_backoff_delay 0 base = 1 := by
  refine ⟨rfl, ?_, by simp [calculate_backoff_delay]⟩
  simpa [calculate_backoff_delay] using one_le_pow₀ h

theorem calculate_backoff_delay_spec_witness :
    (1 : Int) ≤ 2
    ∧ (calculate_backoff_delay 3 2 = (2 : Int) ^ 3
      ∧ 1 ≤ calculate_backoff_delay 3 2
      ∧ calculate_backoff_delay 0 2 = 1) :=
  ⟨by decide, calculate_backoff_delay_spec 3 2 (by decide)⟩

/-- C9: when the backing file is absent (`none`), `load_json` returns its
default rather than an error, and both store loaders return the empty
collection. -/
theorem load_missing_file_is_empty (default : List Job) :
    load_json none default = default
    ∧ load_jobs none = []
    ∧ load_dlq none = [] :=
  ⟨rfl, rfl, rfl⟩

/-- C1: lifecycle transition of a processing job.  On a zero exit status
the job becomes completed with `attempts` unchanged; on a non-zero exit,
a timeout, or a runner fault, `attempts` is incremented by exactly one and
the state becomes dead when the incremented count reaches `max_retries`,
failed otherwise. -/
theorem process_job_lifecycle (job : Job) (now : Nat) (res : ExecResult)
    (h : job.state = JobState.processing) :
    (∀ code : Int, res = ExecResult.exit code → code = 0 →
      (process_job job now res).state = JobState.completed
      ∧ (process_job job now res).attempts = job.attempts)
    ∧ (∀ code : Int, res = ExecResult.exit code → code ≠ 0 →
      (process_job job now res).attempts = job.attempts + 1
      ∧ (process_job job now res).state =
          (if job.attempts + 1 ≥ job.max_retries then JobState.dead else JobState.failed))
    ∧ (res = ExecResult.timeout ∨ res = ExecResult.fault →
      (process_job job now res).attempts = job.attempts + 1
      ∧ (process_job job now res).state =
          (if job.attempts + 1 ≥ job.max_retries then JobState.dead else JobState.failed)) := by
  refine ⟨?_, ?_, ?_⟩
  · rintro code rfl rfl
    simp [process_job]
  · rintro code rfl hc
    simp only [process_job, if_neg hc]
    split <;> simp
  · rintro (rfl | rfl) <;>
      · simp only [process_job]
        split <;> simp

theorem process_job_lifecycle_witness :
    (Job.mk "j1" "false" JobState.processing 0 3 0 0).state = JobState.processing
    ∧ ((∀ code : Int, ExecResult.exit 1 = ExecResult.exit code → code = 0 →
        (process_job (Job.mk "j1" "false" JobState.processing 0 3 0 0) 5
            (ExecResult.exit 1)).state = JobState.completed
        ∧ (process_job (Job.mk "j1" "false" JobState.processing 0 3 0 0) 5
            (ExecResult.exit 1)).attempts
            = (Job.mk "j1" "false" JobState.processing 0 3 0 0).attempts)
      ∧ (∀ code : Int, ExecResult.exit 1 = ExecResult.exit code → code ≠ 0 →
        (process_job (Job.mk "j1" "false" JobState.processing 0 3 0 0) 5
            (ExecResult.exit 1)).attempts
            = (Job.mk "j1" "false" JobState.processing 0 3 0 0).attempts + 1
        ∧ (process_job (Job.mk "j1" "false" JobState.processing 0 3 0 0) 5
            (ExecResult.exit 1)).state =
            (if (Job.mk "j1" "false" JobState.processing 0 3 0 0).attempts + 1
                ≥ (Job.mk "j1" "false" JobState.processing 0 3 0 0).max_retries
              then JobState.dead else JobState.failed))
      ∧ (ExecResult.exit 1 = ExecResult.timeout ∨ ExecResult.exit 1 = ExecResult.fault →
        (process_job (Job.mk "j1" "false" JobState.processing 0 3 0 0) 5
            (ExecResult.exit 1)).attempts
            = (Job.mk "j1" "false" JobState.processing 0 3 0 0).attempts + 1
        ∧ (process_job (Job.mk "j1" "false" JobState.processing 0 3 0 0) 5
            (ExecResult.exit 1)).state =
            (if (Job.mk "j1" "false" JobState.processing 0 3 0 0).attempts + 1
                ≥ (Job.mk "j1" "false" JobState.processing 0 3 0 0).max_retries
              then JobState.dead else JobState.failed))) :=
  ⟨rfl, process_job_lifecycle (Job.mk "j1" "false" JobState.processing 0 3 0 0) 5
    (ExecResult.exit 1) rfl⟩

/-- C5 counterexample: a timeout is a state transition (processing to
failed) yet `process_job` leaves `updated_at` untouched, so the timestamp
is not refreshed to the current time. -/
theorem process_job_timeout_skips_updated_at :
    (process_job (Job.mk "j1" "sleep 99" JobState.processing 0 3 0 0) 7
        ExecResult.timeout).state = JobState.failed
    ∧ (process_job (Job.mk "j1" "sleep 99" JobState.processing 0 3 0 0) 7
        ExecResult.timeout).updated_at = 0
    ∧ (process_job (Job.mk "j1" "sleep 99" JobState.processing 0 3 0 0) 7
        ExecResult.timeout).updated_at ≠ 7 := by
  refine ⟨?_, ?_, ?_⟩ <;> decide

/-- C5 amended: `process_job` refreshes `updated_at` to the current time
on every transition driven by an exit status (success, failure, dead),
but leaves `updated_at` unchanged on the timeout and runner-fault
transitions. -/
theorem process_job_updated_at_amended (job : Job) (now : Nat) :
    (∀ code : Int, (process_job job now (ExecResult.exit code)).updated_at = now)
    ∧ (process_job job now ExecResult.timeout).updated_at = job.updated_at
    ∧ (process_job job now ExecResult.fault).updated_at = job.updated_at := by
  refine ⟨?_, ?_, ?_⟩
  · intro code
    simp only [process_job]
    split
    · rfl
    · split <;> rfl
  · simp only [process_job]
    split <;> rfl
  · simp only [process_job]
    split <;> rfl

/-- Helper: the alive component of `move_dead_jobs` is the non-dead
records of the job store, in order. -/
theorem move_dead_jobs_fst (jobs : List Job) (dlq : List Job) :
    (move_dead_jobs jobs dlq).1
      = jobs.filter (fun j => decide (¬ j.state = JobState.dead)) := by
  induction jobs generalizing dlq with
  | nil => simp [move_dead_jobs]
  | cons job rest ih =>
      by_cases hd : job.state = JobState.dead
      · simp [move_dead_jobs, hd, ih]
      · simp [move_dead_jobs, hd, ih]

/-- Helper: the dead-letter component of `move_dead_jobs` is the old DLQ
followed by the dead records of the job store, in order. -/
theorem move_dead_jobs_snd (jobs : List Job) (dlq : List Job) :
    (move_dead_jobs jobs dlq).2
      = dlq ++ jobs.filter (fun j => decide (j.state = JobState.dead)) := by
  induction jobs generalizing dlq with
  | nil => simp [move_dead_jobs]
  | cons job rest ih =>
      by_cases hd : job.state = JobState.dead
      · simp [move_dead_jobs, hd, ih]
      · simp [move_dead_jobs, hd, ih]

/-- C2: the worker loop never re-selects a failed job.  Submitting
`{command: "false"}` with `max_retries = 2` and running one cycle leaves
the job failed with `attempts = 1` as the spec says; but every later
cycle — for any worker count, any time, and any runner outcomes — finds
no pending job and leaves both stores untouched, because `worker_start`
only selects pending jobs and never calls `process_failed_jobs`.  The job
therefore never reaches `attempts = 2`, never turns dead, and is never
relocated to the dead-letter store, contrary to the specified scenario. -/
theorem worker_never_retries_failed :
    worker_cycle 1 1 (fun _ => ExecResult.exit 1)
        [Job.mk "job1" "false" JobState.pending 0 2 0 0] []
      = some ([Job.mk "job1" "false" JobState.failed 1 2 0 1], [])
    ∧ (∀ (count now : Nat) (exec : Nat → ExecResult),
        worker_cycle count now exec
          [Job.mk "job1" "false" JobState.failed 1 2 0 1] [] = none)
    ∧ (∀ (n count : Nat) (nows : Nat → Nat) (execs : Nat → Nat → ExecResult),
        worker_loop count nows execs n
            ([Job.mk "job1" "false" JobState.failed 1 2 0 1], [])
          = ([Job.mk "job1" "false" JobState.failed 1 2 0 1], [])) := by
  refine ⟨by decide, fun count now exec => rfl, ?_⟩
  intro n
  induction n with
  | zero => intro count nows execs; rfl
  | succ m ih =>
      intro count nows execs
      have hcyc : worker_cycle count (nows m) (execs m)
          [Job.mk "job1" "false" JobState.failed 1 2 0 1] [] = none := rfl
      simp only [worker_loop, hcyc]
      exact ih count nows execs

/-- C3: after the worker cycle's reconciliation step (`move_dead_jobs`),
every dead record sits in the dead-letter store and its id is gone from
the job store, every other record remains in the job store, and —
provided ids are unique in the job store and the two stores start with
disjoint id sets — every id lands in exactly one of the two stores: no id
is duplicated across them and no id is lost. -/
theorem move_dead_jobs_partition (jobs dlq : List Job)
    (hnodup : (jobs.map Job.id).Nodup)
    (hdisj : ∀ i ∈ jobs.map Job.id, i ∉ dlq.map Job.id) :
    (∀ j ∈ jobs, j.state = JobState.dead →
        j ∈ (move_dead_jobs jobs dlq).2
        ∧ j.id ∉ (move_dead_jobs jobs dlq).1.map Job.id)
    ∧ (∀ j ∈ jobs, j.state ≠ JobState.dead → j ∈ (move_dead_jobs jobs dlq).1)
    ∧ (∀ i : String,
        (i ∈ (move_dead_jobs jobs dlq).1.map Job.id
            ∨ i ∈ (move_dead_jobs jobs dlq).2.map Job.id)
          ↔ (i ∈ jobs.map Job.id ∨ i ∈ dlq.map Job.id))
    ∧ (∀ i : String, i ∈ (move_dead_jobs jobs dlq).1.map Job.id →
        i ∉ (move_dead_jobs jobs dlq).2.map Job.id) := by
  have hinj := List.inj_on_of_nodup_map hnodup
  simp only [move_dead_jobs_fst, move_dead_jobs_snd]
  refine ⟨?_, ?_, ?_, ?_⟩
  · intro j hj hdead
    refine ⟨List.mem_append_right _ (List.mem_filter.2 ⟨hj, by simp [hdead]⟩), ?_⟩
    intro hmem
    rcases List.mem_map.1 hmem with ⟨j2, hj2f, hid⟩
    rcases List.mem_filter.1 hj2f with ⟨hj2, hndb⟩
    have hj2j : j2 = j := hinj hj2 hj hid
    rw [hj2j] at hndb
    simp [hdead] at hndb
  · intro j hj hnd
    exact List.mem_filter.2 ⟨hj, by simp [hnd]⟩
  · intro i
    constructor
    · rintro (hfst | hsnd)
      · rcases List.mem_map.1 hfst with ⟨j, hjf, rfl⟩
        exact Or.inl (List.mem_map.2 ⟨j, (List.mem_filter.1 hjf).1, rfl⟩)
      · rcases List.mem_map.1 hsnd with ⟨j, hjs, rfl⟩
        rcases List.mem_append.1 hjs with hdlq | hdead
        · exact Or.inr (List.mem_map.2 ⟨j, hdlq, rfl⟩)
        · exact Or.inl (List.mem_map.2 ⟨j, (List.mem_filter.1 hdead).1, rfl⟩)
    · rintro (hjobs | hdlq2)
      · rcases List.mem_map.1 hjobs with ⟨j, hj, rfl⟩
        by_cases hd : j.state = JobState.dead
        · exact Or.inr (List.mem_map.2
            ⟨j, List.mem_append_right _ (List.mem_filter.2 ⟨hj, by simp [hd]⟩), rfl⟩)
        · exact Or.inl (List.mem_map.2 ⟨j, List.mem_filter.2 ⟨hj, by simp [hd]⟩, rfl⟩)
      · rcases List.mem_map.1 hdlq2 with ⟨j, hjd, rfl⟩
        exact Or.inr (List.mem_map.2 ⟨j, List.mem_append_left _ hjd, rfl⟩)
  · intro i hfst hsnd
    rcases List.mem_map.1 hfst with ⟨j, hjf, rfl⟩
    rcases List.mem_filter.1 hjf with ⟨hj, hndb⟩
    have hnd : ¬ j.state = JobState.dead := by simpa using hndb
    rcases List.mem_map.1 hsnd with ⟨j3, hj3, hid3⟩
    rcases List.mem_append.1 hj3 with hdlq3 | hdead3
    · exact hdisj j.id (List.mem_map.2 ⟨j, hj, rfl⟩) (List.mem_map.2 ⟨j3, hdlq3, hid3⟩)
    · rcases List.mem_filter.1 hdead3 with ⟨hj3mem, hdb⟩
      have hd3 : j3.state = JobState.dead := by simpa using hdb
      have hj3j : j3 = j := hinj hj3mem hj hid3
      rw [hj3j] at hd3
      exact hnd hd3

theorem move_dead_jobs_partition_witness :
    (([Job.mk "d" "false" JobState.dead 1 1 0 0,
        Job.mk "a" "true" JobState.completed 0 3 0 0].map Job.id).Nodup)
    ∧ (∀ i ∈ [Job.mk "d" "false" JobState.dead 1 1 0 0,
          Job.mk "a" "true" JobState.completed 0 3 0 0].map Job.id,
        i ∉ ([Job.mk "q" "x" JobState.dead 2 2 0 0].map Job.id))
    ∧ Job.mk "d" "false" JobState.dead 1 1 0 0 ∈
        (move_dead_jobs
          [Job.mk "d" "false" JobState.dead 1 1 0 0,
            Job.mk "a" "true" JobState.completed 0 3 0 0]
          [Job.mk "q" "x" JobState.dead 2 2 0 0]).2
    ∧ Job.mk "a" "true" JobState.completed 0 3 0 0 ∈
        (move_dead_jobs
          [Job.mk "d" "false" JobState.dead 1 1 0 0,
            Job.mk "a" "true" JobState.completed 0 3 0 0]
          [Job.mk "q" "x" JobState.dead 2 2 0 0]).1 :=
  ⟨by decide, by decide,
    ((move_dead_jobs_partition _ _ (by decide) (by decide)).1 _ (by simp) rfl).1,
    (move_dead_jobs_partition _ _ (by decide) (by decide)).2.1 _ (by simp) (by decide)⟩

/-- Helper: searching for the first match equals taking the head of the
filtered list. -/
theorem find?_eq_filter_head? (p : Job → Bool) (l : List Job) :
    l.find? p = (l.filter p).head? := by
  induction l with
  | nil => rfl
  | cons x xs ih =>
      cases hp : p x
      · rw [List.find?_cons_of_neg _ (by simp [hp]),
          List.filter_cons_of_neg (by simp [hp]), ih]
      · rw [List.find?_cons_of_pos _ hp, List.filter_cons_of_pos hp]
        rfl

/-- C6: when the dead-letter store holds a record with the requested id,
`dlq_retry` succeeds and immediately afterwards a record with that id —
reset to state pending and `attempts = 0`, with `updated_at` refreshed —
is present in the job store (appended to it), while no record with that
id remains in the dead-letter store. -/
theorem dlq_retry_requeues (job_id : String) (now : Nat)
    (jobs dead_jobs : List Job)
    (h : ∃ j, j ∈ dead_jobs ∧ j.id = job_id) :
    ∃ r jobs2 dlq2,
      dlq_retry job_id now jobs dead_jobs = some (jobs2, dlq2)
      ∧ r ∈ jobs2 ∧ r.id = job_id ∧ r.attempts = 0 ∧ r.state = JobState.pending
      ∧ r.updated_at = now
      ∧ (∀ x ∈ dlq2, x.id ≠ job_id)
      ∧ jobs2 = jobs ++ [r] := by
  have hsome : (dead_jobs.find? (fun j => decide (j.id = job_id))).isSome := by
    rw [List.find?_isSome]
    obtain ⟨j, hj, hid⟩ := h
    exact ⟨j, hj, by simp [hid]⟩
  obtain ⟨j0, hfind⟩ := Option.isSome_iff_exists.1 hsome
  have hid0 : j0.id = job_id := by
    have := List.find?_some hfind
    simpa using this
  refine ⟨{ j0 with state := JobState.pending, attempts := 0, updated_at := now },
    jobs ++ [{ j0 with state := JobState.pending, attempts := 0, updated_at := now }],
    dead_jobs.filter (fun j => decide (¬ j.id = job_id)),
    by simp [dlq_retry, hfind], ?_, hid0, rfl, rfl, rfl, ?_, rfl⟩
  · exact List.mem_append.2 (Or.inr (by simp))
  · intro x hx
    have := (List.mem_filter.1 hx).2
    simpa using this

theorem dlq_retry_requeues_witness :
    (∃ j, j ∈ [Job.mk "j1" "false" JobState.dead 2 2 0 0] ∧ j.id = "j1")
    ∧ (∃ r jobs2 dlq2,
        dlq_retry "j1" 9 [] [Job.mk "j1" "false" JobState.dead 2 2 0 0]
          = some (jobs2, dlq2)
        ∧ r ∈ jobs2 ∧ r.id = "j1" ∧ r.attempts = 0 ∧ r.state = JobState.pending
        ∧ r.updated_at = 9
        ∧ (∀ x ∈ dlq2, x.id ≠ "j1")
        ∧ jobs2 = [] ++ [r]) :=
  ⟨⟨Job.mk "j1" "false" JobState.dead 2 2 0 0, by simp, rfl⟩,
    dlq_retry_requeues "j1" 9 [] [Job.mk "j1" "false" JobState.dead 2 2 0 0]
      ⟨Job.mk "j1" "false" JobState.dead 2 2 0 0, by simp, rfl⟩⟩

/-- C10: when the dead-letter store holds several records with the same
id, `dlq_retry` requeues only the first of them (reset to pending) while
its filter deletes every record with that id from the dead-letter store;
each later duplicate therefore ends up in neither store (unless an equal
record already sat in the job store or it coincides with the reset first
record). -/
theorem dlq_retry_duplicate_ids_lose_records (job_id : String) (now : Nat)
    (jobs dead_jobs : List Job) (r1 : Job) (rs : List Job)
    (hfilter : dead_jobs.filter (fun x => decide (x.id = job_id)) = r1 :: rs) :
    dlq_retry job_id now jobs dead_jobs
      = some
          (jobs ++ [{ r1 with state := JobState.pending, attempts := 0, updated_at := now }],
            dead_jobs.filter (fun x => decide (¬ x.id = job_id)))
    ∧ (∀ r ∈ rs, r ∉ dead_jobs.filter (fun x => decide (¬ x.id = job_id)))
    ∧ (∀ r ∈ rs, r ∉ jobs →
        r ≠ { r1 with state := JobState.pending, attempts := 0, updated_at := now } →
        r ∉ jobs ++ [{ r1 with state := JobState.pending, attempts := 0, updated_at := now }]) := by
  have hfind : dead_jobs.find? (fun x => decide (x.id = job_id)) = some r1 := by
    rw [find?_eq_filter_head?, hfilter]
    rfl
  refine ⟨by simp [dlq_retry, hfind], ?_, ?_⟩
  · intro r hr hmem
    have hrmem : r ∈ dead_jobs.filter (fun x => decide (x.id = job_id)) := by
      rw [hfilter]
      exact List.mem_cons_of_mem _ hr
    have hrid : r.id = job_id := by simpa using (List.mem_filter.1 hrmem).2
    have hne := (List.mem_filter.1 hmem).2
    simp [hrid] at hne
  · intro r hr hnotin hne hmem
    rcases List.mem_append.1 hmem with h1 | h2
    · exact hnotin h1
    · simp only [List.mem_singleton] at h2
      exact hne h2

theorem dlq_retry_duplicate_ids_lose_records_witness :
    ([Job.mk "dup" "false" JobState.dead 2 2 0 0,
        Job.mk "dup" "false" JobState.dead 3 3 0 0].filter
          (fun x => decide (x.id = "dup"))
        = Job.mk "dup" "false" JobState.dead 2 2 0 0
          :: [Job.mk "dup" "false" JobState.dead 3 3 0 0])
    ∧ (dlq_retry "dup" 4 []
          [Job.mk "dup" "false" JobState.dead 2 2 0 0,
            Job.mk "dup" "false" JobState.dead 3 3 0 0]
        = some
            ([] ++ [{ Job.mk "dup" "false" JobState.dead 2 2 0 0 with
                state := JobState.pending, attempts := 0, updated_at := 4 }],
              [Job.mk "dup" "false" JobState.dead 2 2 0 0,
                Job.mk "dup" "false" JobState.dead 3 3 0 0].filter
                  (fun x => decide (¬ x.id = "dup")))
      ∧ (∀ r ∈ [Job.mk "dup" "false" JobState.dead 3 3 0 0],
          r ∉ [Job.mk "dup" "false" JobState.dead 2 2 0 0,
              Job.mk "dup" "false" JobState.dead 3 3 0 0].filter
                (fun x => decide (¬ x.id = "dup")))
      ∧ (∀ r ∈ [Job.mk "dup" "false" JobState.dead 3 3 0 0], r ∉ ([] : List Job) →
          r ≠ { Job.mk "dup" "false" JobState.dead 2 2 0 0 with
              state := JobState.pending, attempts := 0, updated_at := 4 } →
          r ∉ [] ++ [{ Job.mk "dup" "false" JobState.dead 2 2 0 0 with
              state := JobState.pending, attempts := 0, updated_at := 4 }])) :=
  ⟨by decide,
    dlq_retry_duplicate_ids_lose_records "dup" 4 []
      [Job.mk "dup" "false" JobState.dead 2 2 0 0,
        Job.mk "dup" "false" JobState.dead 3 3 0 0]
      (Job.mk "dup" "false" JobState.dead 2 2 0 0)
      [Job.mk "dup" "false" JobState.dead 3 3 0 0] (by decide)⟩

/-- Helper: the jobs selected by one pass of the worker loop are exactly
the first at-most-`budget` pending records, in store order. -/
theorem run_pending_snd (now : Nat) (exec : Nat → ExecResult) (l : List Job)
    (budget k : Nat) :
    (run_pending now exec l budget k).2
      = (l.filter (fun j => decide (j.state = JobState.pending))).take budget := by
  induction l generalizing budget k with
  | nil => simp [run_pending]
  | cons j rest ih =>
      by_cases hp : j.state = JobState.pending
      · cases budget with
        | zero => simp [run_pending, hp]
        | succ b => simp [run_pending, hp, ih]
      · simp [run_pending, hp, ih]

/-- C8: the worker cycle idles exactly when no record is pending — it
returns `none`, writing to neither store — and otherwise the selected
jobs are precisely the first at-most-`count` pending records of the job
store, taken in store order with no reordering. -/
theorem worker_cycle_selection (count now : Nat) (exec : Nat → ExecResult)
    (jobs dlq : List Job) :
    (worker_cycle count now exec jobs dlq = none
      ↔ jobs.filter (fun j => decide (j.state = JobState.pending)) = [])
    ∧ (run_pending now exec jobs count 0).2
        = (jobs.filter (fun j => decide (j.state = JobState.pending))).take count := by
  refine ⟨?_, run_pending_snd now exec jobs count 0⟩
  by_cases he : jobs.filter (fun j => decide (j.state = JobState.pending)) = []
  · simp [worker_cycle, he]
  · simp [worker_cycle, he, List.isEmpty_iff]

/-- C4 counterexample: `enqueue` copies a caller-supplied `attempts`
field unchecked, so a submission carrying `attempts = 5` with
`max_retries = 1` puts a record into the job store whose attempt count
already exceeds its retry ceiling, while the dead-letter store plays no
part. -/
theorem enqueue_admits_attempts_above_max_retries :
    enqueue (JobSubmission.mk none "boom" none (some 5) (some 1) none) "g1" 3 0 []
      = [Job.mk "g1" "boom" JobState.pending 5 1 0 0]
    ∧ (Job.mk "g1" "boom" JobState.pending 5 1 0 0).max_retries
        < (Job.mk "g1" "boom" JobState.pending 5 1 0 0).attempts := by
  refine ⟨?_, ?_⟩ <;> decide

/-- Helper: `process_job` preserves `max_retries` and, whenever its
result is not dead, keeps `attempts` within `max_retries`, assuming the
input satisfied the bound. -/
theorem process_job_attempts_le (j : Job) (now : Nat) (res : ExecResult)
    (hj : j.attempts ≤ j.max_retries)
    (hnd : (process_job j now res).state ≠ JobState.dead) :
    (process_job j now res).attempts ≤ (process_job j now res).max_retries := by
  cases res with
  | exit code =>
      by_cases hc : code = 0
      · simpa [process_job, hc] using hj
      · by_cases hm : j.attempts + 1 ≥ j.max_retries
        · exact absurd (by simp [process_job, hc, hm]) hnd
        · simp only [process_job, if_neg hc, if_neg hm]
          simpa using Nat.le_of_lt (Nat.lt_of_not_le hm)
  | timeout =>
      by_cases hm : j.attempts + 1 ≥ j.max_retries
      · exact absurd (by simp [process_job, hm]) hnd
      · simp only [process_job, if_neg hm]
        simpa using Nat.le_of_lt (Nat.lt_of_not_le hm)
  | fault =>
      by_cases hm : j.attempts + 1 ≥ j.max_retries
      · exact absurd (by simp [process_job, hm]) hnd
      · simp only [process_job, if_neg hm]
        simpa using Nat.le_of_lt (Nat.lt_of_not_le hm)

/-- Helper: every record of the job list after one worker pass is either
an untouched original record or the `process_job` image of an original
record marked processing. -/
theorem run_pending_fst_mem (now : Nat) (exec : Nat → ExecResult) (l : List Job)
    (budget k : Nat) :
    ∀ j ∈ (run_pending now exec l budget k).1,
      j ∈ l
      ∨ ∃ j0 ∈ l, ∃ m : Nat,
          j = process_job { j0 with state := JobState.processing } now (exec m) := by
  induction l generalizing budget k with
  | nil => simp [run_pending]
  | cons j0 rest ih =>
      intro j hj
      by_cases hp : j0.state = JobState.pending
      · cases budget with
        | zero =>
            simp only [run_pending, if_pos hp] at hj
            exact Or.inl hj
        | succ b =>
            simp only [run_pending, if_pos hp] at hj
            rcases List.mem_cons.1 hj with rfl | hrest
            · exact Or.inr ⟨j0, List.mem_cons_self j0 rest, k, rfl⟩
            · rcases ih b (k + 1) j hrest with hmem | ⟨j1, hj1, m, hje⟩
              · exact Or.inl (List.mem_cons_of_mem _ hmem)
              · exact Or.inr ⟨j1, List.mem_cons_of_mem _ hj1, m, hje⟩
      · simp only [run_pending, if_neg hp] at hj
        rcases List.mem_cons.1 hj with rfl | hrest
        · exact Or.inl (List.mem_cons_self j rest)
        · rcases ih budget k j hrest with hmem | ⟨j1, hj1, m, hje⟩
          · exact Or.inl (List.mem_cons_of_mem _ hmem)
          · exact Or.inr ⟨j1, List.mem_cons_of_mem _ hj1, m, hje⟩

/-- C4 amended: for records whose `attempts` is initialized by the system
(submitted without a caller-supplied `attempts` field) the spec's
invariant holds: enqueue starts `attempts` at 0; no execution result ever
decreases `attempts`; a failing execution (non-zero exit, timeout, or
fault) that brings `attempts` up to `max_retries` forces state dead in
the same transition; and a worker cycle preserves the bound `attempts ≤
max_retries` for every record left in the job store. -/
theorem attempts_bound_amended :
    (∀ (sub : JobSubmission) (gen_id : String) (cfg now : Nat) (jobs : List Job),
        sub.attempts = none →
        ∀ j ∈ enqueue sub gen_id cfg now jobs, j ∈ jobs ∨ j.attempts = 0)
    ∧ (∀ (j : Job) (now : Nat) (res : ExecResult),
        j.attempts ≤ (process_job j now res).attempts)
    ∧ (∀ (j : Job) (now : Nat) (res : ExecResult),
        (res = ExecResult.timeout ∨ res = ExecResult.fault
          ∨ ∃ c : Int, c ≠ 0 ∧ res = ExecResult.exit c) →
        j.attempts + 1 ≥ j.max_retries →
        (process_job j now res).state = JobState.dead
        ∧ (process_job j now res).attempts = j.attempts + 1)
    ∧ (∀ (count now : Nat) (exec : Nat → ExecResult)
        (jobs dlq jobs2 dlq2 : List Job),
        worker_cycle count now exec jobs dlq = some (jobs2, dlq2) →
        (∀ j ∈ jobs, j.attempts ≤ j.max_retries) →
        ∀ j ∈ jobs2, j.attempts ≤ j.max_retries) := by
  refine ⟨?_, ?_, ?_, ?_⟩
  · intro sub gen_id cfg now jobs hnone j hj
    rcases List.mem_append.1 hj with hmem | hnew
    · exact Or.inl hmem
    · simp only [List.mem_singleton] at hnew
      subst hnew
      simp [hnone]
  · intro j now res
    cases res with
    | exit code =>
        by_cases hc : code = 0
        · simp [process_job, hc]
        · by_cases hm : j.attempts + 1 ≥ j.max_retries
          · simp [process_job, hc, hm]
          · simp [process_job, hc, hm]
    | timeout =>
        by_cases hm : j.attempts + 1 ≥ j.max_retries
        · simp [process_job, hm]
        · simp [process_job, hm]
    | fault =>
        by_cases hm : j.attempts + 1 ≥ j.max_retries
        · simp [process_job, hm]
        · simp [process_job, hm]
  · rintro j now res (rfl | rfl | ⟨c, hc, rfl⟩) hthr
    · exact ⟨by simp [process_job, hthr], by simp [process_job, hthr]⟩
    · exact ⟨by simp [process_job, hthr], by simp [process_job, hthr]⟩
    · exact ⟨by simp [process_job, hc, hthr], by simp [process_job, hc, hthr]⟩
  · intro count now exec jobs dlq jobs2 dlq2 hcyc hinv j hj
    simp only [worker_cycle] at hcyc
    split at hcyc
    · exact absurd hcyc (by simp)
    · injection hcyc with hpair
      have hj2 : jobs2 = ((run_pending now exec jobs count 0).1).filter
          (fun x => decide (¬ x.state = JobState.dead)) := by
        have hfst := congrArg Prod.fst hpair
        rw [move_dead_jobs_fst] at hfst
        exact hfst.symm
      rw [hj2] at hj
      rcases List.mem_filter.1 hj with ⟨hj1, hndb⟩
      have hnd : j.state ≠ JobState.dead := by simpa using hndb
      rcases run_pending_fst_mem now exec jobs count 0 j hj1 with
        hmem | ⟨j0, hj0, m, rfl⟩
      · exact hinv j hmem
      · exact process_job_attempts_le _ now _ (hinv j0 hj0) hnd

theorem attempts_bound_amended_witness :
    ((JobSubmission.mk none "true" none none none none).attempts = none
      ∧ (∀ j ∈ enqueue (JobSubmission.mk none "true" none none none none) "g" 3 0 [],
          j ∈ ([] : List Job) ∨ j.attempts = 0))
    ∧ ((Job.mk "t" "x" JobState.processing 1 2 0 0).attempts
        ≤ (process_job (Job.mk "t" "x" JobState.processing 1 2 0 0) 5
            ExecResult.timeout).attempts)
    ∧ ((ExecResult.timeout = ExecResult.timeout ∨ ExecResult.timeout = ExecResult.fault
          ∨ ∃ c : Int, c ≠ 0 ∧ ExecResult.timeout = ExecResult.exit c)
      ∧ (Job.mk "t" "x" JobState.processing 1 2 0 0).attempts + 1
          ≥ (Job.mk "t" "x" JobState.processing 1 2 0 0).max_retries
      ∧ (process_job (Job.mk "t" "x" JobState.processing 1 2 0 0) 5
            ExecResult.timeout).state = JobState.dead
      ∧ (process_job (Job.mk "t" "x" JobState.processing 1 2 0 0) 5
            ExecResult.timeout).attempts
          = (Job.mk "t" "x" JobState.processing 1 2 0 0).attempts + 1)
    ∧ (worker_cycle 1 1 (fun _ => ExecResult.exit 1)
          [Job.mk "job1" "false" JobState.pending 0 2 0 0] []
        = some ([Job.mk "job1" "false" JobState.failed 1 2 0 1], [])
      ∧ (∀ j ∈ [Job.mk "job1" "false" JobState.pending 0 2 0 0],
          j.attempts ≤ j.max_retries)
      ∧ (∀ j ∈ [Job.mk "job1" "false" JobState.failed 1 2 0 1],
          j.attempts ≤ j.max_retries)) :=
  ⟨⟨rfl, attempts_bound_amended.1 (JobSubmission.mk none "true" none none none none)
      "g" 3 0 [] rfl⟩,
    attempts_bound_amended.2.1 (Job.mk "t" "x" JobState.processing 1 2 0 0) 5
      ExecResult.timeout,
    ⟨Or.inl rfl, by decide,
      attempts_bound_amended.2.2.1 (Job.mk "t" "x" JobState.processing 1 2 0 0) 5
        ExecResult.timeout (Or.inl rfl) (by decide)⟩,
    ⟨by decide, by decide,
      attempts_bound_amended.2.2.2 1 1 (fun _ => ExecResult.exit 1)
        [Job.mk "job1" "false" JobState.pending 0 2 0 0] []
        [Job.mk "job1" "false" JobState.failed 1 2 0 1] []
        (by decide) (by decide)⟩⟩
